import Mathlib

/-!
Verification of the CoinGecko MCP server's coin cache and lookup layer.

The development shallowly embeds `src/services/coingecko.ts` (class
`CoinGeckoService`) and the tool dispatcher of the server entry point.
JavaScript arrays become `List`, `Date | null` becomes `Option Nat`
(an opaque timestamp), and fallible network interactions become explicit
outcome parameters fed to pure transition functions.
-/

namespace CoinGecko

/-- `CoinInfo` from `src/services/coingecko.ts`: one record of the upstream
coin catalog.  `platforms` is an optional map from chain name to contract
address, modelled as an association list. -/
structure CoinInfo where
  id : String
  symbol : String
  name : String
  platforms : Option (List (String × String)) := none
deriving Repr, DecidableEq

/-- Result entry of `findCoinIds`: `{ name: string; id: string | null }`. -/
structure FindResult where
  name : String
  id : Option String
deriving Repr, DecidableEq

/-- Mutable fields of `CoinGeckoService`: `coins` (the cached snapshot) and
`lastUpdated` (`Date | null`, modelled as an opaque timestamp). -/
structure ServiceState where
  coins : List CoinInfo
  lastUpdated : Option Nat
deriving Repr, DecidableEq

/-- The initial field values: `coins = []`, `lastUpdated = null`. -/
def initialState : ServiceState := { coins := [], lastUpdated := none }

/-- JavaScript `Array.prototype.slice(start, stop)` for non-negative
indices: the elements from position `start` (inclusive) to `stop`
(exclusive), clamped to the array. -/
def arraySlice (l : List α) (start stop : Nat) : List α :=
  (l.drop start).take (stop - start)

/-- `getCoins(page, pageSize)`:
`const start = (page - 1) * pageSize; const end = start + pageSize;
return this.coins.slice(start, end);` -/
def getCoins (coins : List CoinInfo) (page : Nat := 1) (pageSize : Nat := 100) :
    List CoinInfo :=
  let start := (page - 1) * pageSize
  let stop := start + pageSize
  arraySlice coins start stop

/-- JavaScript `String.prototype.toLowerCase()`, modelled character by
character (ASCII case mapping, which is all the matching logic relies on). -/
def toLowerCase (s : String) : String :=
  ⟨s.data.map Char.toLower⟩

/-- The predicate passed to `this.coins.find` in `findCoinIds`:
`c.name.toLowerCase() === normalizedName || c.symbol.toLowerCase() === normalizedName`
where `normalizedName = name.toLowerCase()`. -/
def coinMatches (normalizedName : String) (c : CoinInfo) : Bool :=
  toLowerCase c.name == normalizedName || toLowerCase c.symbol == normalizedName

/-- `findCoinIds(coinNames)`: maps each query string to the first record of
the snapshot whose lowercased name or symbol equals the lowercased query and
yields `{ name, id: coin?.id || null }`.  The JavaScript `||` coerces a
found-but-empty id to `null`, hence the emptiness test on `c.id`. -/
def findCoinIds (coins : List CoinInfo) (coinNames : List String) :
    List FindResult :=
  coinNames.map fun name =>
    let normalizedName := toLowerCase name
    let coin := coins.find? (coinMatches normalizedName)
    { name := name
      id := match coin with
            | some c => if c.id = "" then none else some c.id
            | none => none }

/-- `getTotalPages(pageSize)`: `Math.ceil(this.coins.length / pageSize)`,
written in natural-number arithmetic.  Theorem `getTotalPages_eq_ceil`
proves this expression equal to the rational ceiling the source computes. -/
def getTotalPages (coins : List CoinInfo) (pageSize : Nat := 100) : Nat :=
  (coins.length + pageSize - 1) / pageSize

/-- `getLastUpdated()`: returns the `lastUpdated` field. -/
def getLastUpdated (s : ServiceState) : Option Nat :=
  s.lastUpdated

/-! ### Network interactions

`fetch` and `response.json()` are modelled by an explicit outcome value fed
to the method's pure transition function: `notOk` is a response with
`response.ok` false (carrying `statusText`), `networkError` is a rejected
`fetch` promise, and a successful response carries a body that either parses
to the expected shape or is `malformed` (a rejected `response.json()`). -/

/-- Outcome of `fetch`, parameterised by the parsed-body type. -/
inductive FetchResponse (β : Type) where
  | ok (body : β)
  | notOk (statusText : String)
  | networkError (msg : String)
deriving Repr, DecidableEq

/-- Body of the `/coins/list` endpoint: a coin array, or unparseable JSON. -/
inductive CoinListBody where
  | coinList (coins : List CoinInfo)
  | malformed (msg : String)
deriving Repr, DecidableEq

/-- `refreshCoinList()`: on a success response whose body parses, assigns
`this.coins` and then `this.lastUpdated`; every failure path throws out of
the `try` block before either assignment, so the state is returned
untouched alongside the surfaced error. -/
def refreshCoinList (s : ServiceState) (resp : FetchResponse CoinListBody)
    (now : Nat) : Except String Unit × ServiceState :=
  match resp with
  | .networkError msg => (.error msg, s)
  | .notOk statusText => (.error ("API request failed: " ++ statusText), s)
  | .ok (.malformed msg) => (.error msg, s)
  | .ok (.coinList newCoins) =>
      (.ok (), { coins := newCoins, lastUpdated := some now })

/-- `HistoricalData` from `src/services/coingecko.ts`: three parallel
series of `[timestamp, value]` pairs, passed through verbatim. -/
structure HistoricalData where
  prices : List (ℚ × ℚ)
  market_caps : List (ℚ × ℚ)
  total_volumes : List (ℚ × ℚ)
deriving Repr, DecidableEq

/-- Body of the `market_chart/range` endpoint. -/
inductive HistoricalBody where
  | series (data : HistoricalData)
  | malformed (msg : String)
deriving Repr, DecidableEq

/-- `getHistoricalData(...)`: returns the parsed body verbatim; every
failure path rethrows. -/
def getHistoricalData (resp : FetchResponse HistoricalBody) :
    Except String HistoricalData :=
  match resp with
  | .networkError msg => .error msg
  | .notOk statusText => .error ("API request failed: " ++ statusText)
  | .ok (.malformed msg) => .error msg
  | .ok (.series data) => .ok data

/-- One reshaped OHLC candlestick (`build/services/coingecko.js`,
`getOHLCData`). -/
structure OHLCBar where
  timestamp : ℚ
  «open» : ℚ
  high : ℚ
  low : ℚ
  close : ℚ
deriving Repr, DecidableEq

/-- Body of the `ohlc/range` endpoint: rows of positional 5-tuples
`[timestamp, open, high, low, close]`. -/
inductive OHLCBody where
  | bars (rows : List (ℚ × ℚ × ℚ × ℚ × ℚ))
  | malformed (msg : String)
deriving Repr, DecidableEq

/-- `getOHLCData(...)`:
`data.map(([timestamp, open, high, low, close]) => ({timestamp, open, high, low, close}))`
on a successful response; every failure path rethrows. -/
def getOHLCData (resp : FetchResponse OHLCBody) : Except String (List OHLCBar) :=
  match resp with
  | .networkError msg => .error msg
  | .notOk statusText => .error ("API request failed: " ++ statusText)
  | .ok (.malformed msg) => .error msg
  | .ok (.bars rows) =>
      .ok (rows.map fun (timestamp, o, high, low, close) =>
        { timestamp := timestamp, «open» := o, high := high, low := low,
          close := close })

/-! ### Read-only query methods as state transitions

The four cache accessors assign to no field of the service; to make that a
provable statement each is wrapped as a transition returning the (unchanged)
state explicitly. -/

/-- One call to a read-only accessor of `CoinGeckoService`. -/
inductive QueryOp where
  | getCoinsOp (page pageSize : Nat)
  | findCoinIdsOp (names : List String)
  | getTotalPagesOp (pageSize : Nat)
  | getLastUpdatedOp
deriving Repr, DecidableEq

/-- Result value of one read-only accessor call. -/
inductive QueryResult where
  | coinsR (cs : List CoinInfo)
  | idsR (rs : List FindResult)
  | pagesR (n : Nat)
  | updatedR (t : Option Nat)
deriving Repr, DecidableEq

/-- Runs one read-only accessor: the method body reads `this.coins` /
`this.lastUpdated` and contains no assignment, so the state passes through. -/
def runQuery (s : ServiceState) : QueryOp → QueryResult × ServiceState
  | .getCoinsOp page pageSize => (.coinsR (getCoins s.coins page pageSize), s)
  | .findCoinIdsOp names => (.idsR (findCoinIds s.coins names), s)
  | .getTotalPagesOp pageSize => (.pagesR (getTotalPages s.coins pageSize), s)
  | .getLastUpdatedOp => (.updatedR (getLastUpdated s), s)

/-- Final state after a sequence of read-only accessor calls. -/
def runQueries (s : ServiceState) (ops : List QueryOp) : ServiceState :=
  ops.foldl (fun st op => (runQuery st op).2) s

/-! ### The tool dispatcher

The server entry point routes a tool name and raw argument bag through a
zod schema and only then touches the cache or the network.  Raw JSON
argument values are modelled by `RawVal` (numbers as integers), an argument
bag by an association list, and a zod failure by the path of the offending
field together with the violated constraint's message. -/

/-- An element of a raw JSON array argument (the schemas only inspect one
level of array nesting: `z.array(z.string())`). -/
inductive RawElem where
  | str (s : String)
  | num (n : Int)
  | other (tag : String)
deriving Repr, DecidableEq

/-- A raw JSON argument value as received by the dispatcher. -/
inductive RawVal where
  | num (n : Int)
  | str (s : String)
  | arr (xs : List RawElem)
  | other (tag : String)
deriving Repr, DecidableEq

/-- `GetCoinsArgumentsSchema.parse`:
`z.object({ page: z.number().min(1).optional(), pageSize: z.number().min(1).max(1000).optional() })`.
Yields the two optional fields; a violation yields the field path and the
violated constraint. -/
def parseGetCoinsArguments (args : List (String × RawVal)) :
    Except (String × String) (Option Int × Option Int) := do
  let page ← match args.lookup "page" with
    | none => pure none
    | some (.num n) =>
        if n < 1 then throw ("page", "Number must be greater than or equal to 1")
        else pure (some n)
    | some _ => throw ("page", "Expected number")
  let pageSize ← match args.lookup "pageSize" with
    | none => pure none
    | some (.num n) =>
        if n < 1 then throw ("pageSize", "Number must be greater than or equal to 1")
        else if 1000 < n then throw ("pageSize", "Number must be less than or equal to 1000")
        else pure (some n)
    | some _ => throw ("pageSize", "Expected number")
  return (page, pageSize)

/-- `FindCoinIdsArgumentsSchema.parse`:
`z.object({ coins: z.array(z.string()) })` with `coins` required. -/
def parseFindCoinIdsArguments (args : List (String × RawVal)) :
    Except (String × String) (List String) :=
  match args.lookup "coins" with
  | none => throw ("coins", "Required")
  | some (.arr xs) =>
      xs.mapM fun v =>
        match v with
        | .str q => pure q
        | _ => throw ("coins", "Expected string")
  | some _ => throw ("coins", "Expected array")

/-- `GetHistoricalDataArgumentsSchema.parse`:
`z.object({ id: z.string(), vs_currency: z.string(), from: z.number(),
to: z.number(), interval: z.enum(['5m','hourly','daily']).optional() })`. -/
def parseGetHistoricalDataArguments (args : List (String × RawVal)) :
    Except (String × String) (String × String × Int × Int × Option String) := do
  let id ← match args.lookup "id" with
    | none => throw ("id", "Required")
    | some (.str q) => pure q
    | some _ => throw ("id", "Expected string")
  let vs ← match args.lookup "vs_currency" with
    | none => throw ("vs_currency", "Required")
    | some (.str q) => pure q
    | some _ => throw ("vs_currency", "Expected string")
  let fromTs ← match args.lookup "from" with
    | none => throw ("from", "Required")
    | some (.num n) => pure n
    | some _ => throw ("from", "Expected number")
  let toTs ← match args.lookup "to" with
    | none => throw ("to", "Required")
    | some (.num n) => pure n
    | some _ => throw ("to", "Expected number")
  let interval ← match args.lookup "interval" with
    | none => pure none
    | some (.str q) =>
        if q = "5m" ∨ q = "hourly" ∨ q = "daily" then pure (some q)
        else throw ("interval", "Invalid enum value")
    | some _ => throw ("interval", "Expected string")
  return (id, vs, fromTs, toTs, interval)

/-- Errors surfaced by the tool-call handler: a `ZodError` reformatted as
`Invalid arguments: <field>: <message>`, the `Unknown tool` throw, or a
rethrown upstream failure. -/
inductive ToolError where
  | invalidArguments (field constraint : String)
  | unknownTool (name : String)
  | upstream (msg : String)
deriving Repr, DecidableEq

/-- Successful tool-call payloads (the JSON text the handler serializes,
kept structured). -/
inductive ToolOutput where
  | coinsPage (coins : List CoinInfo) (currentPage : Int) (totalPages : Nat)
      (pageSize : Int) (lastUpdated : Option Nat)
  | idResults (results : List FindResult)
  | refreshed (lastUpdated : Option Nat)
  | historical (fromTs toTs : Int) (interval : String) (data : HistoricalData)
deriving Repr, DecidableEq

/-- Side effects a tool call can perform: reading the cache fields, or an
outbound `fetch` to the upstream API. -/
inductive Effect where
  | cacheRead
  | upstreamCall
deriving Repr, DecidableEq

/-- The `CallToolRequestSchema` handler of the server entry point: routes on
the tool name, parses the argument bag with the tool's zod schema, and only
on successful parse touches the cache or the network.  A `ZodError` is
reformatted as an invalid-arguments error; upstream outcomes are supplied
through `coinListResp` (for `refresh-cache`) and `histResp` (for
`get-historical-data`).  Returns the handler result, the service state
after the call, and the effects performed. -/
def handleToolCall (s : ServiceState) (name : String)
    (args : List (String × RawVal)) (coinListResp : FetchResponse CoinListBody)
    (histResp : FetchResponse HistoricalBody) (now : Nat) :
    Except ToolError ToolOutput × ServiceState × List Effect :=
  if name = "get-coins" then
    match parseGetCoinsArguments args with
    | .error (f, c) => (.error (.invalidArguments f c), s, [])
    | .ok (pageOpt, pageSizeOpt) =>
        let page := pageOpt.getD 1
        let pageSize := pageSizeOpt.getD 100
        let coins := getCoins s.coins page.toNat pageSize.toNat
        let totalPages := getTotalPages s.coins pageSize.toNat
        let lastUpdated := getLastUpdated s
        (.ok (.coinsPage coins page totalPages pageSize lastUpdated), s,
         [.cacheRead])
  else if name = "find-coin-ids" then
    match parseFindCoinIdsArguments args with
    | .error (f, c) => (.error (.invalidArguments f c), s, [])
    | .ok coins => (.ok (.idResults (findCoinIds s.coins coins)), s, [.cacheRead])
  else if name = "refresh-cache" then
    match refreshCoinList s coinListResp now with
    | (.error msg, s') => (.error (.upstream msg), s', [.upstreamCall])
    | (.ok _, s') => (.ok (.refreshed (getLastUpdated s')), s', [.upstreamCall])
  else if name = "get-historical-data" then
    match parseGetHistoricalDataArguments args with
    | .error (f, c) => (.error (.invalidArguments f c), s, [])
    | .ok (_, _, fromTs, toTs, interval) =>
        match getHistoricalData histResp with
        | .error msg => (.error (.upstream msg), s, [.upstreamCall])
        | .ok data =>
            (.ok (.historical fromTs toTs (interval.getD "auto") data), s,
             [.upstreamCall])
  else
    (.error (.unknownTool name), s, [])

/-- The validation stage of `handleToolCall` in isolation: the zod parse a
given tool name performs on its argument bag (tools without a schema parse
nothing). -/
def validateToolCall (name : String) (args : List (String × RawVal)) :
    Except (String × String) Unit :=
  if name = "get-coins" then (parseGetCoinsArguments args).map fun _ => ()
  else if name = "find-coin-ids" then (parseFindCoinIdsArguments args).map fun _ => ()
  else if name = "get-historical-data" then
    (parseGetHistoricalDataArguments args).map fun _ => ()
  else .ok ()

/-- The id `findCoinIds` computes for one query string (the inner body of
its `map`), named so lookup facts can be stated once. -/
def lookupIdFor (coins : List CoinInfo) (name : String) : Option String :=
  match coins.find? (coinMatches (toLowerCase name)) with
  | some c => if c.id = "" then none else some c.id
  | none => none

/-- The lookup as claim C1 words it: each input is paired with the id of
the first record whose lowercased name or symbol equals the lowercased
input — with no condition on the id's content — or with null when no
record matches.  To be compared with the source's `findCoinIds`, which
additionally coerces an empty matched id to null. -/
def findCoinIdsPerClaim (coins : List CoinInfo) (coinNames : List String) :
    List FindResult :=
  coinNames.map fun name =>
    { name := name
      id := (coins.find? (coinMatches (toLowerCase name))).map (·.id) }

/-- Sample record used by concrete witnesses. -/
def btcCoin : CoinInfo := { id := "bitcoin", symbol := "btc", name := "Bitcoin" }

/-- Sample record used by concrete witnesses. -/
def oldCoin : CoinInfo := { id := "oldcoin", symbol := "old", name := "Old Coin" }

/-- Sample record used by concrete witnesses. -/
def newCoin : CoinInfo := { id := "newcoin", symbol := "new", name := "New Coin" }

/-! ## Helper lemmas -/

theorem nat_le_of_add_decomp (n p A B : Nat) (h1 : A + B = n + p - 1)
    (h2 : B < p) : n ≤ A := by
  omega

theorem length_le_totalPages_mul (coins : List CoinInfo) (p : Nat)
    (hp : 1 ≤ p) : coins.length ≤ getTotalPages coins p * p := by
  rw [getTotalPages, Nat.mul_comm]
  exact nat_le_of_add_decomp _ p _ _ (Nat.div_add_mod _ p) (Nat.mod_lt _ hp)

theorem getCoins_eq_drop_take (coins : List CoinInfo) (page pageSize : Nat) :
    getCoins coins page pageSize =
      (coins.drop ((page - 1) * pageSize)).take pageSize := by
  simp [getCoins, arraySlice, Nat.add_sub_cancel_left]

theorem range_flatMap_take_drop (l : List CoinInfo) (p : Nat) (n : Nat) :
    (List.range n).flatMap (fun k => (l.drop (k * p)).take p) =
      l.take (n * p) := by
  induction n with
  | zero => simp
  | succ n ih =>
      rw [List.range_succ, List.flatMap_append, ih, Nat.succ_mul, List.take_add]
      simp

theorem findCoinIds_eq_map (coins : List CoinInfo) (names : List String) :
    findCoinIds coins names =
      names.map fun name => { name := name, id := lookupIdFor coins name } := by
  rfl

theorem lookupIdFor_eq_some (coins : List CoinInfo) (q id : String) :
    lookupIdFor coins q = some id ↔
      ∃ c, coins.find? (coinMatches (toLowerCase q)) = some c ∧
        c.id = id ∧ c.id ≠ "" := by
  unfold lookupIdFor
  cases h : coins.find? (coinMatches (toLowerCase q)) with
  | none => simp
  | some c =>
      by_cases hc : c.id = "" <;> simp [hc]

theorem except_map_unit_error {α : Type} (e : Except (String × String) α)
    (fc : String × String) :
    e.map (fun _ => ()) = .error fc ↔ e = .error fc := by
  cases e <;> simp [Except.map]

/-! ## Claim theorems -/

/-- C4: for every snapshot, every `page ≥ 1` and every
`pageSize ∈ [1, 1000]`, `getCoins(page, pageSize)` equals the slice of the
snapshot from index `(page-1)*pageSize` (inclusive) to
`(page-1)*pageSize + pageSize` (exclusive); in particular, for any page
beyond the data it returns the empty sequence (and, being a total
function, never raises an error). -/
theorem getCoins_slice_out_of_range (coins : List CoinInfo)
    (page pageSize : Nat) (hpage : 1 ≤ page) (hps : 1 ≤ pageSize)
    (hps' : pageSize ≤ 1000) :
    getCoins coins page pageSize =
      (coins.drop ((page - 1) * pageSize)).take pageSize ∧
    (getTotalPages coins pageSize < page → getCoins coins page pageSize = []) := by
  refine ⟨getCoins_eq_drop_take coins page pageSize, fun hgt => ?_⟩
  rw [getCoins_eq_drop_take]
  have h1 : coins.length ≤ getTotalPages coins pageSize * pageSize :=
    length_le_totalPages_mul coins pageSize hps
  have h2 : getTotalPages coins pageSize ≤ page - 1 := by omega
  have h3 : getTotalPages coins pageSize * pageSize ≤ (page - 1) * pageSize :=
    Nat.mul_le_mul_right _ h2
  have h4 : coins.drop ((page - 1) * pageSize) = [] :=
    List.drop_eq_nil_iff.mpr (by omega)
  rw [h4, List.take_nil]

/-- Witness for C4: a concrete page beyond the data yields `[]`. -/
theorem getCoins_slice_out_of_range_witness :
    getCoins [btcCoin] 5 3 = [] :=
  (getCoins_slice_out_of_range [btcCoin] 5 3 (by decide) (by decide)
    (by decide)).2 (by decide)

/-- C5: for every snapshot and every `pageSize ∈ [1, 1000]`,
`getTotalPages(pageSize)` equals `⌈count(coins) / pageSize⌉` (the rational
ceiling `Math.ceil` computes), and equals 0 when the cache holds no
records. -/
theorem getTotalPages_ceil (coins : List CoinInfo) (pageSize : Nat)
    (hps : 1 ≤ pageSize) (hps' : pageSize ≤ 1000) :
    (getTotalPages coins pageSize : ℤ) =
      ⌈(coins.length : ℚ) / (pageSize : ℚ)⌉ ∧
    (coins = [] → getTotalPages coins pageSize = 0) := by
  constructor
  · have hp0 : (0 : ℚ) < (pageSize : ℚ) := by exact_mod_cast hps
    symm
    rw [Int.ceil_eq_iff]
    constructor
    · rw [lt_div_iff₀ hp0]
      have hNat : getTotalPages coins pageSize * pageSize <
          coins.length + pageSize := by
        rw [getTotalPages]
        exact lt_of_le_of_lt (Nat.div_mul_le_self _ _) (by omega)
      have hQ : (getTotalPages coins pageSize : ℚ) * (pageSize : ℚ) <
          (coins.length : ℚ) + (pageSize : ℚ) := by exact_mod_cast hNat
      push_cast
      rw [sub_mul, one_mul]
      linarith
    · rw [div_le_iff₀ hp0]
      have h := length_le_totalPages_mul coins pageSize hps
      push_cast
      exact_mod_cast h
  · rintro rfl
    show (List.length ([] : List CoinInfo) + pageSize - 1) / pageSize = 0
    simp only [List.length_nil, Nat.zero_add]
    exact Nat.div_eq_of_lt (by omega)

/-- Witness for C5: on the empty cache `getTotalPages(100)` is 0. -/
theorem getTotalPages_ceil_witness : getTotalPages [] 100 = 0 :=
  (getTotalPages_ceil [] 100 (by decide) (by decide)).2 rfl

/-- C2: for every snapshot, every `pageSize ∈ [1, 1000]` and every
`page ≥ 1`, `getCoins(page, pageSize)` returns at most `pageSize` records,
and the concatenation of pages 1 through `getTotalPages(pageSize)` equals
the full cached snapshot in its original order, with no record duplicated
or omitted. -/
theorem getCoins_pagination_partition (coins : List CoinInfo)
    (page pageSize : Nat) (hpage : 1 ≤ page) (hps : 1 ≤ pageSize)
    (hps' : pageSize ≤ 1000) :
    (getCoins coins page pageSize).length ≤ pageSize ∧
    (List.range (getTotalPages coins pageSize)).flatMap
        (fun k => getCoins coins (k + 1) pageSize) = coins := by
  constructor
  · rw [getCoins_eq_drop_take, List.length_take]
    exact Nat.min_le_left _ _
  · have hfun : (fun k => getCoins coins (k + 1) pageSize) =
        (fun k => (coins.drop (k * pageSize)).take pageSize) := by
      funext k
      rw [getCoins_eq_drop_take]
      simp
    rw [hfun, range_flatMap_take_drop]
    exact List.take_of_length_le (length_le_totalPages_mul coins pageSize hps)

/-- Witness for C2: a three-record snapshot at page size 2 splits into two
pages that concatenate back to the snapshot. -/
theorem getCoins_pagination_partition_witness :
    (List.range (getTotalPages [btcCoin, oldCoin, newCoin] 2)).flatMap
        (fun k => getCoins [btcCoin, oldCoin, newCoin] (k + 1) 2) =
      [btcCoin, oldCoin, newCoin] :=
  (getCoins_pagination_partition [btcCoin, oldCoin, newCoin] 1 2 (by decide)
    (by decide) (by decide)).2

/-- C3: if `refreshCoinList` fails for any reason (transport error,
non-success HTTP status, or malformed response body), the cached coin list
and `lastUpdated` are exactly as before the call, subsequent `getCoins` and
`findCoinIds` results are identical to the pre-call state, and an error is
surfaced to the caller. -/
theorem refreshCoinList_failure_preserves (s : ServiceState)
    (resp : FetchResponse CoinListBody) (now : Nat)
    (hfail : (∃ m, resp = .networkError m) ∨ (∃ st, resp = .notOk st) ∨
      (∃ m, resp = .ok (.malformed m))) :
    ∃ e, (refreshCoinList s resp now).1 = .error e ∧
      (refreshCoinList s resp now).2 = s ∧
      (∀ page pageSize,
        getCoins (refreshCoinList s resp now).2.coins page pageSize =
          getCoins s.coins page pageSize) ∧
      (∀ qs, findCoinIds (refreshCoinList s resp now).2.coins qs =
        findCoinIds s.coins qs) ∧
      getLastUpdated (refreshCoinList s resp now).2 = getLastUpdated s := by
  rcases hfail with ⟨m, rfl⟩ | ⟨st, rfl⟩ | ⟨m, rfl⟩ <;>
    exact ⟨_, rfl, rfl, fun _ _ => rfl, fun _ => rfl, rfl⟩

/-- Witness for C3: a simulated upstream 500 leaves a populated state
untouched and surfaces an error. -/
theorem refreshCoinList_failure_preserves_witness :
    ∃ e, (refreshCoinList ⟨[btcCoin], some 42⟩
        (.notOk "Internal Server Error") 99).1 = .error e ∧
      (refreshCoinList ⟨[btcCoin], some 42⟩
        (.notOk "Internal Server Error") 99).2 = ⟨[btcCoin], some 42⟩ ∧
      (∀ page pageSize,
        getCoins (refreshCoinList ⟨[btcCoin], some 42⟩
          (.notOk "Internal Server Error") 99).2.coins page pageSize =
          getCoins (⟨[btcCoin], some 42⟩ : ServiceState).coins page pageSize) ∧
      (∀ qs, findCoinIds (refreshCoinList ⟨[btcCoin], some 42⟩
          (.notOk "Internal Server Error") 99).2.coins qs =
        findCoinIds (⟨[btcCoin], some 42⟩ : ServiceState).coins qs) ∧
      getLastUpdated (refreshCoinList ⟨[btcCoin], some 42⟩
        (.notOk "Internal Server Error") 99).2 =
        getLastUpdated ⟨[btcCoin], some 42⟩ :=
  refreshCoinList_failure_preserves ⟨[btcCoin], some 42⟩
    (.notOk "Internal Server Error") 99 (.inr (.inl ⟨_, rfl⟩))

/-- C6: a successful `refreshCoinList` wholesale-replaces the snapshot with
the upstream response and sets `lastUpdated`; a record present in the old
snapshot but absent from the new response appears in no subsequent
`getCoins` page, and every id reported by a subsequent `findCoinIds` is the
id of a record of the new response (no merging of old and new records). -/
theorem refreshCoinList_success_replaces (s : ServiceState)
    (newCoins : List CoinInfo) (now : Nat) (c : CoinInfo)
    (hc : c ∈ s.coins) (hnot : c ∉ newCoins) :
    (refreshCoinList s (.ok (.coinList newCoins)) now).1 = .ok () ∧
    (refreshCoinList s (.ok (.coinList newCoins)) now).2.coins = newCoins ∧
    (refreshCoinList s (.ok (.coinList newCoins)) now).2.lastUpdated =
      some now ∧
    (∀ page pageSize, c ∉
      getCoins (refreshCoinList s (.ok (.coinList newCoins)) now).2.coins
        page pageSize) ∧
    (∀ qs r, r ∈ findCoinIds
        (refreshCoinList s (.ok (.coinList newCoins)) now).2.coins qs →
      ∀ id, r.id = some id → ∃ c' ∈ newCoins, c'.id = id) := by
  refine ⟨rfl, rfl, rfl, ?_, ?_⟩
  · intro page pageSize hmem
    rw [getCoins_eq_drop_take] at hmem
    exact hnot (List.mem_of_mem_drop (List.mem_of_mem_take hmem))
  · intro qs r hr id hid
    rw [findCoinIds_eq_map] at hr
    obtain ⟨q, hq, rfl⟩ := List.mem_map.mp hr
    replace hid : lookupIdFor newCoins q = some id := hid
    obtain ⟨c', hfind, hcid, hne⟩ := (lookupIdFor_eq_some newCoins q id).mp hid
    exact ⟨c', List.mem_of_find?_eq_some hfind, hcid⟩

/-- Witness for C6: after a successful refresh replacing `[oldCoin]` with
`[newCoin]`, the old record is absent from the first page. -/
theorem refreshCoinList_success_replaces_witness :
    oldCoin ∉ getCoins (refreshCoinList ⟨[oldCoin], some 1⟩
      (.ok (.coinList [newCoin])) 2).2.coins 1 100 :=
  (refreshCoinList_success_replaces ⟨[oldCoin], some 1⟩ [newCoin] 2 oldCoin
    (by decide) (by decide)).2.2.2.1 1 100

/-- C1 counterexample: on a snapshot whose first (and only) matching record
has the empty string as id, `findCoinIds` pairs the query with null, while
the claim as stated ("pairs the input string with the id of the first
matching record") demands the empty-string id. -/
theorem findCoinIds_empty_id_counterexample :
    findCoinIds [{ id := "", symbol := "btc", name := "Bitcoin" }] ["BTC"] =
        [{ name := "BTC", id := none }] ∧
    findCoinIdsPerClaim [{ id := "", symbol := "btc", name := "Bitcoin" }]
        ["BTC"] = [{ name := "BTC", id := some "" }] ∧
    findCoinIds [{ id := "", symbol := "btc", name := "Bitcoin" }] ["BTC"] ≠
      findCoinIdsPerClaim [{ id := "", symbol := "btc", name := "Bitcoin" }]
        ["BTC"] := by
  decide

/-- C1 (amended): `findCoinIds` returns one result per input string, in
input order; the i-th result pairs the input string with the id of the
first record in stored order whose lowercased name or symbol equals the
lowercased input — except that a matched empty-string id is reported as
null — or with null if no record matches (exact match after lowercasing,
no partial match). -/
theorem findCoinIds_first_match (coins : List CoinInfo) (names : List String) :
    (findCoinIds coins names).length = names.length ∧
    ∀ i : Nat, ∀ hi : i < names.length, ∃ r : FindResult,
      (findCoinIds coins names)[i]? = some r ∧ r.name = names[i] ∧
      (((∀ c ∈ coins, coinMatches (toLowerCase names[i]) c = false) ∧
          r.id = none) ∨
       (∃ pre c post, coins = pre ++ c :: post ∧
          coinMatches (toLowerCase names[i]) c = true ∧
          (∀ c' ∈ pre, coinMatches (toLowerCase names[i]) c' = false) ∧
          r.id = (if c.id = "" then none else some c.id))) := by
  constructor
  · simp [findCoinIds]
  · intro i hi
    refine ⟨{ name := names[i], id := lookupIdFor coins names[i] }, ?_, rfl, ?_⟩
    · rw [findCoinIds_eq_map, List.getElem?_map, List.getElem?_eq_getElem hi]
      rfl
    · cases hfind : coins.find? (coinMatches (toLowerCase names[i])) with
      | none =>
          left
          constructor
          · intro c hcmem
            simpa using List.find?_eq_none.mp hfind c hcmem
          · show lookupIdFor coins names[i] = none
            unfold lookupIdFor
            rw [hfind]
      | some c =>
          right
          obtain ⟨hpc, pre, post, hdecomp, hpre⟩ := List.find?_eq_some.mp hfind
          refine ⟨pre, c, post, hdecomp, hpc, ?_, ?_⟩
          · intro c' hc'
            simpa using hpre c' hc'
          · show lookupIdFor coins names[i] = if c.id = "" then none else some c.id
            unfold lookupIdFor
            rw [hfind]

/-- Witness for C1: the spec's worked example entry `"BTC" ↦ "bitcoin"`,
obtained from the amended theorem at index 0. -/
theorem findCoinIds_first_match_witness :
    ∃ r : FindResult,
      (findCoinIds [btcCoin] ["BTC"])[0]? = some r ∧
      r.name = (["BTC"] : List String)[0] ∧
      (((∀ c ∈ [btcCoin],
            coinMatches (toLowerCase (["BTC"] : List String)[0]) c = false) ∧
          r.id = none) ∨
       (∃ pre c post, [btcCoin] = pre ++ c :: post ∧
          coinMatches (toLowerCase (["BTC"] : List String)[0]) c = true ∧
          (∀ c' ∈ pre,
            coinMatches (toLowerCase (["BTC"] : List String)[0]) c' = false) ∧
          r.id = (if c.id = "" then none else some c.id))) :=
  (findCoinIds_first_match [btcCoin] ["BTC"]).2 0 (by decide)

/-- C10: a returned id is always a non-empty string or null: the matched id
passes through the falsiness check `coin?.id || null`, so a matched
empty-string id is reported as null. -/
theorem findCoinIds_id_nonempty (coins : List CoinInfo) (names : List String) :
    (∀ r ∈ findCoinIds coins names, ∀ id, r.id = some id → id ≠ "") ∧
    (∀ q ∈ names, ∀ c, coins.find? (coinMatches (toLowerCase q)) = some c →
      c.id = "" →
      ({ name := q, id := none } : FindResult) ∈ findCoinIds coins names) := by
  constructor
  · intro r hr id hid
    rw [findCoinIds_eq_map] at hr
    obtain ⟨q, hq, rfl⟩ := List.mem_map.mp hr
    replace hid : lookupIdFor coins q = some id := hid
    obtain ⟨c, hfind, hcid, hne⟩ := (lookupIdFor_eq_some coins q id).mp hid
    rw [← hcid]
    exact hne
  · intro q hq c hfind hcid
    have hnone : lookupIdFor coins q = none := by
      unfold lookupIdFor
      rw [hfind]
      simp [hcid]
    rw [findCoinIds_eq_map]
    exact List.mem_map.mpr ⟨q, hq, by rw [hnone]⟩

/-- Witness for C10: a matching record with empty id yields a null entry. -/
theorem findCoinIds_id_nonempty_witness :
    ({ name := "btc", id := none } : FindResult) ∈
      findCoinIds [{ id := "", symbol := "btc", name := "Bitcoin" }] ["btc"] :=
  (findCoinIds_id_nonempty [{ id := "", symbol := "btc", name := "Bitcoin" }]
    ["btc"]).2 "btc" (by decide)
    { id := "", symbol := "btc", name := "Bitcoin" } (by decide) rfl

/-- C8: for every upstream OHLC response that is a sequence of 5-element
positional tuples, `getOHLCData` returns a sequence of the same length and
order in which the i-th tuple `[timestamp, open, high, low, close]` is
reshaped into the record with each named field equal to the corresponding
tuple position. -/
theorem getOHLCData_reshapes (rows : List (ℚ × ℚ × ℚ × ℚ × ℚ)) :
    ∃ bars : List OHLCBar, getOHLCData (.ok (.bars rows)) = .ok bars ∧
      bars.length = rows.length ∧
      ∀ i : Nat, ∀ hi : i < rows.length, ∀ t o hg lw cl : ℚ,
        rows[i] = (t, o, hg, lw, cl) →
        bars[i]? = some { timestamp := t, «open» := o, high := hg,
                          low := lw, close := cl } := by
  refine ⟨_, rfl, by simp [getOHLCData], ?_⟩
  intro i hi t o hg lw cl hrow
  rw [List.getElem?_map, List.getElem?_eq_getElem hi, hrow]
  rfl

/-- Witness for C8: the spec's example bar
`[1711296000, 65000, 65500, 64800, 65200]`. -/
theorem getOHLCData_reshapes_witness :
    ∃ bars : List OHLCBar,
      getOHLCData (.ok (.bars
        [((1711296000 : ℚ), (65000 : ℚ), (65500 : ℚ), (64800 : ℚ),
          (65200 : ℚ))])) = .ok bars ∧
      bars[0]? = some { timestamp := 1711296000, «open» := 65000,
                        high := 65500, low := 64800, close := 65200 } := by
  obtain ⟨bars, h1, h2, h3⟩ := getOHLCData_reshapes
    [((1711296000 : ℚ), (65000 : ℚ), (65500 : ℚ), (64800 : ℚ), (65200 : ℚ))]
  exact ⟨bars, h1, h3 0 (by decide) _ _ _ _ _ rfl⟩

/-- C9: the read-only query operations `getCoins`, `findCoinIds`,
`getTotalPages`, and `getLastUpdated` never modify the cache state: one
call, and any sequence of such calls with any arguments, leaves the cached
coin list and `lastUpdated` identical. -/
theorem queries_preserve_state (s : ServiceState) (ops : List QueryOp) :
    (∀ op : QueryOp, (runQuery s op).2 = s) ∧ runQueries s ops = s := by
  refine ⟨fun op => by cases op <;> rfl, ?_⟩
  induction ops with
  | nil => rfl
  | cons op ops ih =>
      show runQueries (runQuery s op).2 ops = s
      have h : (runQuery s op).2 = s := by cases op <;> rfl
      rw [h]
      exact ih

/-- C7: whenever the zod validation a tool performs on its argument bag
fails (wrong type, out-of-range value, or missing required field), the
dispatcher reports an invalid-arguments error naming the offending field
and the violated constraint, leaves the state untouched, and performs no
cache operation and no upstream network call. -/
theorem handleToolCall_rejects_invalid (s : ServiceState) (name : String)
    (args : List (String × RawVal)) (coinListResp : FetchResponse CoinListBody)
    (histResp : FetchResponse HistoricalBody) (now : Nat) (f c : String)
    (h : validateToolCall name args = .error (f, c)) :
    handleToolCall s name args coinListResp histResp now =
      (.error (.invalidArguments f c), s, []) := by
  unfold validateToolCall at h
  unfold handleToolCall
  by_cases h1 : name = "get-coins"
  · rw [if_pos h1] at h ⊢
    rw [except_map_unit_error] at h
    rw [h]
  · rw [if_neg h1] at h ⊢
    by_cases h2 : name = "find-coin-ids"
    · rw [if_pos h2] at h ⊢
      rw [except_map_unit_error] at h
      rw [h]
    · rw [if_neg h2] at h ⊢
      by_cases h4 : name = "get-historical-data"
      · rw [if_pos h4] at h
        rw [except_map_unit_error] at h
        have h3 : ¬name = "refresh-cache" := by rw [h4]; decide
        rw [if_neg h3, if_pos h4, h]
      · rw [if_neg h4] at h
        simp at h

/-- Witness for C7: `pageSize = 5000` on `get-coins` is rejected with a
field-specific message and no effect. -/
theorem handleToolCall_rejects_invalid_witness :
    handleToolCall initialState "get-coins" [("pageSize", RawVal.num 5000)]
        (.notOk "x") (.notOk "x") 0 =
      (.error (.invalidArguments "pageSize"
        "Number must be less than or equal to 1000"), initialState, []) :=
  handleToolCall_rejects_invalid initialState "get-coins"
    [("pageSize", RawVal.num 5000)] (.notOk "x") (.notOk "x") 0 _ _ (by rfl)

end CoinGecko
